import Mathlib

/-!
Verification of the agent control loop in `src/embedia/agents/tooluser.py`
(`ToolUser`): the Selector (`_choose_tool`), the Argument Binder
(`_choose_args`), the Continuation Reasoner (`_choose_next_step`), the
construction check (`_check_init`) and the Orchestrator loop (`_run`).

The embedding is shallow: the Completion Service, the human-confirmation
gate and Capability invocation are external collaborators, modelled as
oracles indexed by the loop-iteration counter; Python exceptions are
modelled as values of an error type `Err` carried by `Except`.
-/

namespace Embedia

/-- Values produced by the Argument Binder's best-effort literal coercion
(Python `eval` of the value string, falling back to the raw string):
strings and integers suffice for the behaviors verified here. -/
inductive PyVal where
  | str (s : String)
  | int (n : Int)
  deriving DecidableEq

/-- Modelled from the spec: the Capability (Tool) abstraction
(`embedia/core/tool.py` is absent from src/): a name, a description and a
declared argument schema mapping argument names to descriptions. -/
structure ToolSpec where
  name : String
  desc : String
  args : List (String × String)
  deriving DecidableEq

/-- Modelled from the spec: `Action` of `embedia/schema/actionstep.py`
(absent from src/): the tool name and the bound arguments. -/
structure Action where
  tool_name : String
  args : List (String × PyVal)
  deriving DecidableEq

/-- Modelled from the spec: `ActionStep` of `embedia/schema/actionstep.py`
(absent from src/): one (question, action, result) record of the Step Log. -/
structure ActionStep where
  question : String
  action : Action
  result : PyVal
  deriving DecidableEq

/-- Python exceptions raised by the code under verification.  The source
raises `AgentError` with a formatted message in the selection, binding and
reasoning cases; the embedding records the data interpolated into each
message as constructor arguments. `typeError` is the `TypeError` raised
when the un-awaited coroutine returned by `_choose_next_step()` is tuple
unpacked; `indexError` is an `IndexError` from list indexing. -/
inductive Err where
  | selectionError (raw : String)
  | bindingError (argName toolName : String) (schema : List (String × String))
  | reasoningError (raw : String)
  | minValError (what : String)
  | toolFailure (msg : String)
  | confirmationRejected
  | typeError
  | indexError
  deriving DecidableEq

/-- Python `str.split(sep)` (single-character separator, no maxsplit) on the
character list of the string: always returns at least one piece, keeps
empty pieces. -/
def pySplit (sep : Char) : List Char → List (List Char)
  | [] => [[]]
  | c :: cs =>
    if c = sep then [] :: pySplit sep cs
    else
      match pySplit sep cs with
      | h :: t => (c :: h) :: t
      | [] => [[c]]

/-- Python `sep.join(pieces)` on character lists. -/
def joinSep (sep : Char) : List (List Char) → List Char
  | [] => []
  | [x] => x
  | x :: xs => x ++ sep :: joinSep sep xs

theorem pySplit_ne_nil (sep : Char) (cs : List Char) : pySplit sep cs ≠ [] := by
  induction cs with
  | nil => simp [pySplit]
  | cons c cs ih =>
    simp only [pySplit]
    split
    · simp
    · cases h : pySplit sep cs with
      | nil => simp
      | cons h t => simp [h]

theorem pySplit_head (sep : Char) (cs : List Char) :
    (pySplit sep cs).headD [] = cs.takeWhile (fun c => c != sep) := by
  induction cs with
  | nil => simp [pySplit, List.takeWhile]
  | cons c cs ih =>
    simp only [pySplit, List.takeWhile]
    by_cases hc : c = sep
    · simp [hc]
    · simp only [hc, if_neg hc]
      have hne : (c != sep) = true := by simp [bne_iff_ne, hc]
      rw [hne]
      simp only []
      cases h : pySplit sep cs with
      | nil => exact absurd h (pySplit_ne_nil sep cs)
      | cons hh tt =>
        simp only [List.headD]
        rw [h] at ih
        simp only [List.headD] at ih
        simp [ih]

theorem pySplit_not_mem (sep : Char) (cs : List Char) (h : sep ∉ cs) :
    pySplit sep cs = [cs] := by
  induction cs with
  | nil => simp [pySplit]
  | cons c cs ih =>
    simp only [List.mem_cons, not_or] at h
    obtain ⟨h1, h2⟩ := h
    simp only [pySplit]
    rw [if_neg (fun hc => h1 hc.symm), ih h2]

theorem pySplit_mem (sep : Char) (cs : List Char) (h : sep ∈ cs) :
    pySplit sep cs =
      cs.takeWhile (fun c => c != sep) ::
        pySplit sep ((cs.dropWhile (fun c => c != sep)).tail) := by
  induction cs with
  | nil => simp at h
  | cons c cs ih =>
    by_cases hc : c = sep
    · subst hc
      simp [pySplit, List.takeWhile, List.dropWhile]
    · have hmem : sep ∈ cs := by
        rcases List.mem_cons.mp h with h1 | h1
        · exact absurd h1.symm hc
        · exact h1
      have hne : (c != sep) = true := by simp [bne_iff_ne, hc]
      simp only [pySplit, if_neg hc, List.takeWhile, List.dropWhile, hne]
      rw [ih hmem]

theorem joinSep_pySplit (sep : Char) (cs : List Char) :
    joinSep sep (pySplit sep cs) = cs := by
  induction cs with
  | nil => simp [pySplit, joinSep]
  | cons c cs ih =>
    simp only [pySplit]
    by_cases hc : c = sep
    · subst hc
      rw [if_pos rfl]
      cases h : pySplit c cs with
      | nil => exact absurd h (pySplit_ne_nil c cs)
      | cons hh tt =>
        rw [h] at ih
        cases tt with
        | nil => simp only [joinSep] at ih ⊢; simp [ih]
        | cons a b => simp only [joinSep] at ih ⊢; simp [ih]
    · rw [if_neg hc]
      cases h : pySplit sep cs with
      | nil => exact absurd h (pySplit_ne_nil sep cs)
      | cons hh tt =>
        rw [h] at ih
        cases tt with
        | nil => simp only [joinSep] at ih ⊢; simp [ih]
        | cons a b =>
          simp only [joinSep] at ih ⊢
          simp [ih]

/-- The text of `s` strictly before its first colon (all of `s` when there
is no colon): `s.split(':')[0]` in Python. Vocabulary used to state claims
about the parsers, independent of the `pySplit`-based definitions. -/
def beforeColon (s : String) : String :=
  String.mk (s.data.takeWhile (fun c => c != ':'))

/-- The text of `s` strictly after its first colon, empty when there is no
colon: `':'.join(s.split(':')[1:])` in Python. -/
def afterFirstColon (s : String) : String :=
  String.mk ((s.data.dropWhile (fun c => c != ':')).tail)

/-- The text of `s` strictly between its first and second colons (all text
after the first colon when there is no second colon). -/
def betweenColons (s : String) : String :=
  beforeColon (afterFirstColon s)

/-- `s` contains a colon. -/
def hasColon (s : String) : Prop := ':' ∈ s.data

instance (s : String) : Decidable (hasColon s) := by
  unfold hasColon; infer_instance

/-- The single-quote character, written by code point to keep the source
free of quote-escape literals. -/
def quoteChar : Char := Char.ofNat 39

/-- Models the Python builtin `eval` as applied by `ToolUser._choose_args`
(tooluser.py lines 78-81) to a binder value string, restricted to the
literal forms relevant here: a single-quoted string literal (with no inner
quote) evaluates to its contents, a digit-only token without a leading zero
to an integer, and every other input raises, in which case the caller keeps
the raw string. -/
def pyEval (s : String) : PyVal :=
  match s.data with
  | [] => PyVal.str s
  | c :: rest =>
    if c = quoteChar ∧ rest ≠ [] ∧ rest.getLast? = some quoteChar
        ∧ quoteChar ∉ rest.dropLast then
      PyVal.str (String.mk rest.dropLast)
    else if (c :: rest).all (fun d => d.isDigit) ∧ (c = '0' → rest = []) then
      PyVal.int ((c :: rest).foldl (fun n d => 10 * n + (d.toNat - 48)) 0)
    else PyVal.str s

/-- Embeds `ToolUser._choose_tool` (tooluser.py lines 36-51), the Selector,
with the Completion Service's reply supplied as `resp`: a single registered
tool is returned directly (the service is not consulted, so the result does
not depend on `resp`); otherwise the first tool whose name equals the reply
is returned, and an unmatched reply raises `AgentError` carrying the raw
reply text. -/
def choose_tool (tools : List ToolSpec) (resp : String) : Except Err ToolSpec :=
  match tools with
  | [t] => Except.ok t
  | _ =>
    match tools.find? (fun t => t.name == resp) with
    | some t => Except.ok t
    | none => Except.error (Err.selectionError resp)

/-- Python `str.strip()`: remove leading and trailing whitespace. -/
def pyStrip (s : String) : String :=
  String.mk
    (((s.data.dropWhile Char.isWhitespace).reverse.dropWhile Char.isWhitespace).reverse)

/-- One line of the Argument Binder's reply, parsed as in tooluser.py lines
69-71: `choice.split(':')` , name `choice[0].strip()`, value
`':'.join(choice[1:]).strip()`. -/
def parseLine (line : String) : String × String :=
  let parts := pySplit ':' line.data
  (pyStrip (String.mk (parts.headD [])), pyStrip (String.mk (joinSep ':' parts.tail)))

/-- Python dict insertion as in `arg_choice_dict[arg_name] = arg_value`:
an existing key keeps its position and gets the new value, a new key is
appended. -/
def dictUpd (d : List (String × String)) (key v : String) : List (String × String) :=
  if d.any (fun p => p.1 == key) then
    d.map (fun p => if p.1 == key then (key, v) else p)
  else d ++ [(key, v)]

/-- The `arg_choice_dict` built by `ToolUser._choose_args` (tooluser.py
lines 66-72) from the Completion Service's reply: one name/value pair per
newline-separated line. -/
def parseDict (resp : String) : List (String × String) :=
  ((pySplit '\n' resp.data).map String.mk).foldl
    (fun acc line => dictUpd acc (parseLine line).1 (parseLine line).2) []

/-- The validation and coercion loop of `ToolUser._choose_args` (tooluser.py
lines 74-82): walk the parsed dict in order; a name absent from the tool's
declared schema raises `AgentError` naming the argument, the tool and the
schema; otherwise the value is coerced with `eval`, keeping the raw string
when `eval` raises. -/
def bindLoop (t : ToolSpec) : List (String × String) → Except Err (List (String × PyVal))
  | [] => Except.ok []
  | (n, v) :: rest =>
    if t.args.any (fun p => p.1 == n) then
      match bindLoop t rest with
      | Except.ok kwargs => Except.ok ((n, pyEval v) :: kwargs)
      | Except.error e => Except.error e
    else Except.error (Err.bindingError n t.name t.args)

/-- Embeds `ToolUser._choose_args` (tooluser.py lines 53-82), the Argument
Binder, with the Completion Service's reply supplied as `resp`: a tool with
an empty schema yields an empty mapping without consulting the service. -/
def choose_args (t : ToolSpec) (resp : String) : Except Err (List (String × PyVal)) :=
  if t.args.isEmpty then Except.ok []
  else bindLoop t (parseDict resp)

/-- Embeds `ToolUser._choose_next_step` (tooluser.py lines 84-94), the
Continuation Reasoner, with the Completion Service's reply supplied as
`resp`.  Python indexes `resp.split(':')[0]` and `resp.split(':')[1]`: with
at least two pieces the first piece selects the kind and the second piece is
the payload; with one piece the comparison of `[0]` may succeed but `[1]`
then raises `IndexError`; the empty piece list cannot occur (indexing it
would also raise `IndexError`). Any other first piece raises `AgentError`
carrying the raw reply. -/
def choose_next_step (resp : String) : Except Err (String × String) :=
  match (pySplit ':' resp.data).map String.mk with
  | p0 :: p1 :: _ =>
    if p0 = "Question" then Except.ok (p1, "Question")
    else if p0 = "Final Answer" then Except.ok (p1, "Final Answer")
    else Except.error (Err.reasoningError resp)
  | [p0] =>
    if p0 = "Question" then Except.error Err.indexError
    else if p0 = "Final Answer" then Except.error Err.indexError
    else Except.error (Err.reasoningError resp)
  | [] => Except.error Err.indexError

/-- Embeds `ToolUser._check_init` (tooluser.py lines 30-34).  `check_type`
and `check_min_val` live in `embedia/utils/typechecking.py`, absent from
src/; modelled from the spec: at least one Capability is required and the
collaborators must have the right types — type checks always succeed in
this typed embedding.  The source validates neither `max_steps` nor
`max_duration`, so they are unused here. -/
def check_init (tools : List ToolSpec) (max_steps : Int) (max_duration : ℚ) :
    Except Err Unit :=
  if 1 ≤ tools.length then Except.ok ()
  else Except.error (Err.minValError "len(tools)")

/-- The external collaborators of one `run` invocation, indexed by the
loop-iteration counter (each iteration consults each collaborator at most
once).  `selector`, `binder` and `reasoner` are the three deep-copied
Completion Service instances' replies; `confirm` is the human-confirmation
gate of the `Tool` base class (absent from src/; modelled from the spec:
`confirm(payload) → accepted | rejected`, rejection raising); `toolResult`
is the chosen Capability's invocation (modelled from the spec: `invoke
(bound_args) → result | failure`, a failure raising an exception opaque to
the loop); `elapsed` is the value of `time.time() - now` at each while-
condition check. -/
structure RunEnv where
  selector : Nat → String
  binder : Nat → String
  reasoner : Nat → String
  confirm : Nat → Bool
  toolResult : Nat → Except String PyVal
  elapsed : Nat → ℚ

/-- The construction-time configuration of a `ToolUser`. -/
structure Config where
  tools : List ToolSpec
  max_steps : Int
  max_duration : ℚ

instance {ε α : Type} [DecidableEq ε] [DecidableEq α] : DecidableEq (Except ε α) :=
  fun x y =>
  match x, y with
  | Except.ok a, Except.ok b => decidable_of_iff (a = b) (by simp)
  | Except.ok _, Except.error _ => isFalse (by simp)
  | Except.error _, Except.ok _ => isFalse (by simp)
  | Except.error d, Except.error e => decidable_of_iff (d = e) (by simp)

/-- Observable outcome of one `ToolUser._run` invocation: the returned
`(result, status)` pair or the exception raised; the final `action_steps`
instance attribute; the number of Capability invocations performed; the
number of `AgentStep` and `AgentTimeout` events published. -/
structure RunResult where
  outcome : Except Err (PyVal × Nat)
  action_steps : List ActionStep
  invocations : Nat
  stepEvents : Nat
  timeoutEvents : Nat
  deriving DecidableEq

/-- The fall-through exit of `ToolUser._run` (tooluser.py lines 122-125):
publish one `AgentTimeout` event, then return
`(self.action_steps[-1].result, 1)` — an `IndexError` when the log is
empty. -/
def timeoutExit (log : List ActionStep) (inv se : Nat) : RunResult :=
  match log.getLast? with
  | some last => ⟨Except.ok (last.result, 1), log, inv, se, 1⟩
  | none => ⟨Except.error Err.indexError, log, inv, se, 1⟩

/-- Embeds the `while` loop of `ToolUser._run` (tooluser.py lines 96-125).
`rem` is the number of values of `steps` still satisfying
`steps <= self.max_steps`, so `rem = 0` exactly when the step bound fails;
the `and` of the while-condition short-circuits, checking `elapsed` only
after the step bound.  Line 102 reads
`thought, thought_type = self._choose_next_step()` — the async method is
called WITHOUT `await`, so whenever `self.action_steps` is non-empty the
returned coroutine is tuple-unpacked and Python raises
`TypeError: cannot unpack non-iterable coroutine object`; `env.reasoner`
is therefore never consulted and the `Question`/`Final Answer` branches of
lines 103-106 are dead code. -/
def runLoop (cfg : Config) (env : RunEnv) :
    Nat → String → List ActionStep → Nat → Nat → Nat → RunResult
  | 0, _, log, _, inv, se => timeoutExit log inv se
  | rem + 1, question, log, k, inv, se =>
    if env.elapsed k ≤ cfg.max_duration then
      match log with
      | _ :: _ => ⟨Except.error Err.typeError, log, inv, se, 0⟩
      | [] =>
        match choose_tool cfg.tools (env.selector k) with
        | Except.error e => ⟨Except.error e, [], inv, se, 0⟩
        | Except.ok tool =>
          match choose_args tool (env.binder k) with
          | Except.error e => ⟨Except.error e, [], inv, se, 0⟩
          | Except.ok kwargs =>
            if env.confirm k then
              match env.toolResult k with
              | Except.error msg => ⟨Except.error (Err.toolFailure msg), [], inv + 1, se, 0⟩
              | Except.ok r =>
                runLoop cfg env rem question
                  [⟨question, ⟨tool.name, kwargs⟩, r⟩] (k + 1) (inv + 1) (se + 1)
            else ⟨Except.error Err.confirmationRejected, [], inv, se, 0⟩
    else timeoutExit log inv se

theorem runLoop_zero (cfg : Config) (env : RunEnv) (q : String)
    (log : List ActionStep) (k inv se : Nat) :
    runLoop cfg env 0 q log k inv se = timeoutExit log inv se := rfl

theorem runLoop_succ (cfg : Config) (env : RunEnv) (rem : Nat) (q : String)
    (log : List ActionStep) (k inv se : Nat) :
    runLoop cfg env (rem + 1) q log k inv se =
      (if env.elapsed k ≤ cfg.max_duration then
        match log with
        | _ :: _ => ⟨Except.error Err.typeError, log, inv, se, 0⟩
        | [] =>
          match choose_tool cfg.tools (env.selector k) with
          | Except.error e => ⟨Except.error e, [], inv, se, 0⟩
          | Except.ok tool =>
            match choose_args tool (env.binder k) with
            | Except.error e => ⟨Except.error e, [], inv, se, 0⟩
            | Except.ok kwargs =>
              if env.confirm k then
                match env.toolResult k with
                | Except.error msg =>
                  ⟨Except.error (Err.toolFailure msg), [], inv + 1, se, 0⟩
                | Except.ok r =>
                  runLoop cfg env rem q
                    [⟨q, ⟨tool.name, kwargs⟩, r⟩] (k + 1) (inv + 1) (se + 1)
              else ⟨Except.error Err.confirmationRejected, [], inv, se, 0⟩
      else timeoutExit log inv se) := rfl

/-- Embeds `ToolUser._run` called on an instance whose `action_steps`
attribute currently holds `log`: `steps` starts at `1`, so
`(cfg.max_steps).toNat` iterations satisfy the step bound. -/
def runT (cfg : Config) (env : RunEnv) (question : String)
    (log : List ActionStep) : RunResult :=
  runLoop cfg env cfg.max_steps.toNat question log 0 0 0

theorem beforeColon_of_not_hasColon (s : String) (h : ¬ hasColon s) :
    beforeColon s = s := by
  have hp := pySplit_head ':' s.data
  rw [pySplit_not_mem ':' s.data h] at hp
  simp only [List.headD] at hp
  unfold beforeColon
  rw [← hp]

/-- C3 support: the Continuation Reasoner on a reply containing a colon,
whose text before the first colon is one of the two recognized keywords. -/
theorem choose_next_step_of_hasColon (resp : String) (hcol : hasColon resp) :
    choose_next_step resp =
      (if beforeColon resp = "Question" then
        Except.ok (betweenColons resp, "Question")
      else if beforeColon resp = "Final Answer" then
        Except.ok (betweenColons resp, "Final Answer")
      else Except.error (Err.reasoningError resp)) := by
  have hsplit := pySplit_mem ':' resp.data hcol
  obtain ⟨h1, t1, hrest⟩ : ∃ h1 t1,
      pySplit ':' ((resp.data.dropWhile (fun c => c != ':')).tail) = h1 :: t1 := by
    cases hp : pySplit ':' ((resp.data.dropWhile (fun c => c != ':')).tail) with
    | nil => exact absurd hp (pySplit_ne_nil _ _)
    | cons a b => exact ⟨a, b, rfl⟩
  have hh1 : h1 = ((resp.data.dropWhile (fun c => c != ':')).tail).takeWhile
      (fun c => c != ':') := by
    have hp := pySplit_head ':' ((resp.data.dropWhile (fun c => c != ':')).tail)
    rw [hrest] at hp
    simpa using hp
  unfold choose_next_step
  rw [hsplit, hrest, hh1]
  simp only [List.map]
  rfl

theorem choose_next_step_of_not_hasColon (resp : String) (hcol : ¬ hasColon resp) :
    choose_next_step resp =
      (if resp = "Question" then Except.error Err.indexError
      else if resp = "Final Answer" then Except.error Err.indexError
      else Except.error (Err.reasoningError resp)) := by
  unfold choose_next_step
  rw [pySplit_not_mem ':' resp.data hcol]
  simp only [List.map]

/-- C3: for every Completion Service reply handed to the Continuation
Reasoner: when the text before the first colon is `Question` or
`Final Answer` and the reply contains a colon, the result is the pair of
the text between the first and second colons (NOT the whole remainder) and
the matching kind; when the text before the first colon is a keyword but
the reply has no colon at all, an `IndexError` is raised (not the
`AgentError` the claim predicts); every other reply raises `AgentError`
carrying the raw reply. -/
theorem choose_next_step_spec (resp : String) :
    (beforeColon resp = "Question" → hasColon resp →
      choose_next_step resp = Except.ok (betweenColons resp, "Question"))
  ∧ (beforeColon resp = "Final Answer" → hasColon resp →
      choose_next_step resp = Except.ok (betweenColons resp, "Final Answer"))
  ∧ ((beforeColon resp = "Question" ∨ beforeColon resp = "Final Answer") →
      ¬ hasColon resp → choose_next_step resp = Except.error Err.indexError)
  ∧ (beforeColon resp ≠ "Question" → beforeColon resp ≠ "Final Answer" →
      choose_next_step resp = Except.error (Err.reasoningError resp)) := by
  by_cases hcol : hasColon resp
  · have hcns := choose_next_step_of_hasColon resp hcol
    refine ⟨fun hq _ => ?_, fun hf _ => ?_, fun _ hn => absurd hcol hn,
      fun hq hf => ?_⟩
    · rw [hcns, if_pos hq]
    · rw [hcns, if_neg (fun hq => by rw [hq] at hf; exact absurd hf (by decide)),
        if_pos hf]
    · rw [hcns, if_neg hq, if_neg hf]
  · have hcns := choose_next_step_of_not_hasColon resp hcol
    have hbc := beforeColon_of_not_hasColon resp hcol
    refine ⟨fun _ hc => absurd hc hcol, fun _ hc => absurd hc hcol,
      fun hqf _ => ?_, fun hq hf => ?_⟩
    · rcases hqf with hq | hf
      · rw [hcns, if_pos (hbc.symm.trans hq)]
      · have hres : resp = "Final Answer" := hbc.symm.trans hf
        rw [hcns, if_neg (by rw [hres]; decide), if_pos hres]
    · rw [hcns, if_neg (fun h => hq (hbc.trans h)),
        if_neg (fun h => hf (hbc.trans h))]

/-- C3 counterexample: at the reply `"Question: a:b"` the payload is
`" a"`, the segment between the first and second colons, not the entire
text `" a:b"` after the first colon; and the colon-free reply `"Question"`
raises `IndexError`, not the `AgentError` (`ReasoningError`) the claim
predicts. -/
theorem choose_next_step_payload_counterexample :
    choose_next_step "Question: a:b" = Except.ok (" a", "Question")
  ∧ (" a" : String) ≠ " a:b"
  ∧ choose_next_step "Question" = Except.error Err.indexError
  ∧ Err.indexError ≠ Err.reasoningError "Question" := by decide

/-- C3 witness: the general theorem applied at the concrete reply
`"Final Answer: 42"`. -/
theorem choose_next_step_spec_witness :
    choose_next_step "Final Answer: 42" =
      Except.ok (betweenColons "Final Answer: 42", "Final Answer") :=
  (choose_next_step_spec "Final Answer: 42").2.1 (by decide) (by decide)

/-- A configuration and oracle exercising C1: one registered tool, default
budgets, gate accepting, Capability succeeding, and a Continuation Reasoner
that replies `"Final Answer: 42"`. -/
def cfgC1 : Config := ⟨[⟨"Calculator", "does math", [("expr", "the expression")]⟩], 10, 60⟩

def envC1 : RunEnv :=
  ⟨fun _ => "Calculator", fun _ => "expr: 1", fun _ => "Final Answer: 42",
    fun _ => true, fun _ => Except.ok (PyVal.int 3), fun _ => 0⟩

def stepC1 : ActionStep := ⟨"q0", ⟨"Calculator", [("expr", PyVal.int 1)]⟩, PyVal.int 3⟩

/-- C1: with a non-empty Step Log at the top of an iteration and the
Continuation Reasoner set to reply `"Final Answer: 42"`, the run does NOT
terminate with `(42, 0)`: line 102 calls the async `_choose_next_step`
without `await` and tuple-unpacks the coroutine, so the run raises
`TypeError` before the reply is ever read, performing no Capability
invocation. -/
theorem finalAnswer_run_raises_typeError :
    envC1.reasoner 0 = "Final Answer: 42"
  ∧ runT cfgC1 envC1 "q" [stepC1] =
      ⟨Except.error Err.typeError, [stepC1], 0, 0, 0⟩ := by
  constructor
  · rfl
  · decide

/-- A configuration and oracle exercising C2: `max_steps = 3`, one tool,
gate accepting, Capability succeeding, and a Continuation Reasoner that
never replies with a `Final Answer` line. -/
def cfgC2 : Config := ⟨[⟨"T", "a tool", [("x", "the x")]⟩], 3, 60⟩

def envC2 : RunEnv :=
  ⟨fun _ => "T", fun _ => "x: 1", fun _ => "Question: again",
    fun _ => true, fun _ => Except.ok (PyVal.int 7), fun _ => 0⟩

/-- C2: with `max_steps = 3` and a Continuation Reasoner that never
answers `Final Answer`, the loop does NOT perform 3 Capability invocations
and return the 3rd step's result with status 1: the first iteration
completes and appends one ActionStep, and the second iteration raises
`TypeError` on the un-awaited `_choose_next_step()` coroutine, so exactly
one invocation happens and no `AgentTimeout` event is published. -/
theorem maxSteps3_run_raises_typeError :
    (∀ k, beforeColon (envC2.reasoner k) ≠ "Final Answer")
  ∧ cfgC2.max_steps = 3
  ∧ runT cfgC2 envC2 "q" [] =
      ⟨Except.error Err.typeError,
        [⟨"q", ⟨"T", [("x", PyVal.int 1)]⟩, PyVal.int 7⟩], 1, 1, 0⟩ := by
  refine ⟨fun k => ?_, rfl, by decide⟩
  show beforeColon "Question: again" ≠ "Final Answer"
  decide

/-- A configuration and oracle exercising C4: one tool with an empty
schema, `max_steps = 1`, gate accepting, Capability succeeding. -/
def cfgC4 : Config := ⟨[⟨"T", "a tool", []⟩], 1, 60⟩

def envC4 : RunEnv :=
  ⟨fun _ => "", fun _ => "", fun _ => "", fun _ => true,
    fun _ => Except.ok (PyVal.str "out"), fun _ => 0⟩

/-- C4 counterexample: `action_steps` is an instance attribute that `_run`
never clears, so a second `run` invocation on the same instance starts
with the ActionStep recorded by the first run, not with an empty Step Log:
the first run records one step and the second run immediately takes the
non-empty-log branch (raising `TypeError` without any invocation), unlike
a run from a fresh instance, which performs an invocation. -/
theorem step_log_persists_counterexample :
    (runT cfgC4 envC4 "q" []).action_steps = [⟨"q", ⟨"T", []⟩, PyVal.str "out"⟩]
  ∧ (runT cfgC4 envC4 "q" []).invocations = 1
  ∧ (runT cfgC4 envC4 "q2" ((runT cfgC4 envC4 "q" []).action_steps)).outcome
      = Except.error Err.typeError
  ∧ (runT cfgC4 envC4 "q2" ((runT cfgC4 envC4 "q" []).action_steps)).invocations = 0 := by
  refine ⟨by decide, by decide, by decide, by decide⟩

/-- C4 as amended: the Step Log is created empty at construction and
persists on the instance across `run` invocations: after a first run with
`max_steps = 1` that completes one step, the instance's `action_steps`
holds that ActionStep, and every second run on the same instance starts
with it — observably, the second run takes the non-empty-log branch
(raising `TypeError`, appending nothing) instead of behaving like a run
with an empty Step Log. -/
theorem step_log_persists_across_runs (env : RunEnv) (q : String) (t : ToolSpec)
    (r : PyVal) (md : ℚ) (h1 : env.confirm 0 = true)
    (h2 : env.toolResult 0 = Except.ok r) (h3 : env.elapsed 0 ≤ md)
    (h4 : t.args = []) :
    (runT ⟨[t], 1, md⟩ env q []).action_steps = [⟨q, ⟨t.name, []⟩, r⟩]
  ∧ ∀ env2 q2, env2.elapsed 0 ≤ md →
      (runT ⟨[t], 1, md⟩ env2 q2 ((runT ⟨[t], 1, md⟩ env q []).action_steps)).outcome
        = Except.error Err.typeError
    ∧ (runT ⟨[t], 1, md⟩ env2 q2 ((runT ⟨[t], 1, md⟩ env q []).action_steps)).action_steps
        = (runT ⟨[t], 1, md⟩ env q []).action_steps := by
  have hct : choose_tool [t] (env.selector 0) = Except.ok t := rfl
  have hca : choose_args t (env.binder 0) = Except.ok [] := by
    unfold choose_args
    rw [if_pos (by rw [h4]; rfl)]
  have hrun : runT ⟨[t], 1, md⟩ env q [] =
      ⟨Except.ok (r, 1), [⟨q, ⟨t.name, []⟩, r⟩], 1, 1, 1⟩ := by
    show runLoop ⟨[t], 1, md⟩ env (0 + 1) q [] 0 0 0 = _
    rw [runLoop_succ, if_pos h3]
    simp only [hct, hca]
    rw [if_pos h1, h2]
    rfl
  rw [hrun]
  refine ⟨rfl, fun env2 q2 h5 => ?_⟩
  have hrun2 : runT ⟨[t], 1, md⟩ env2 q2 [⟨q, ⟨t.name, []⟩, r⟩] =
      ⟨Except.error Err.typeError, [⟨q, ⟨t.name, []⟩, r⟩], 0, 0, 0⟩ := by
    show runLoop ⟨[t], 1, md⟩ env2 (0 + 1) q2 [⟨q, ⟨t.name, []⟩, r⟩] 0 0 0 = _
    rw [runLoop_succ, if_pos h5]
  rw [hrun2]
  exact ⟨rfl, rfl⟩

/-- C4 witness: the amended theorem applied at the concrete tool, result
and oracles of the counterexample. -/
theorem step_log_persists_across_runs_witness :
    (runT ⟨[⟨"T", "a tool", []⟩], 1, 60⟩ envC4 "q" []).action_steps
      = [⟨"q", ⟨"T", []⟩, PyVal.str "out"⟩]
  ∧ (runT ⟨[⟨"T", "a tool", []⟩], 1, 60⟩ envC4 "q2"
      ((runT ⟨[⟨"T", "a tool", []⟩], 1, 60⟩ envC4 "q" []).action_steps)).outcome
      = Except.error Err.typeError := by
  have h := step_log_persists_across_runs envC4 "q" ⟨"T", "a tool", []⟩
    (PyVal.str "out") 60 rfl rfl (show (0 : ℚ) ≤ 60 by norm_num) rfl
  exact ⟨h.1, (h.2 envC4 "q2" (show (0 : ℚ) ≤ 60 by norm_num)).1⟩

/-- C5 counterexample: `_check_init` accepts `max_steps = 0` and
`max_duration = 0` (it validates only the tool list and the collaborator
types), so construction does not fail for non-positive budgets. -/
theorem check_init_accepts_nonpositive_budget :
    check_init [⟨"T", "a tool", []⟩] 0 0 = Except.ok ()
  ∧ ¬ (0 < (0 : Int)) := by
  exact ⟨rfl, by decide⟩

/-- C5 as amended: given well-typed collaborators, construction fails
exactly when the Capability set is empty; `max_steps` and `max_duration`
are not validated at all. -/
theorem check_init_spec (tools : List ToolSpec) (ms : Int) (md : ℚ) :
    (tools ≠ [] → check_init tools ms md = Except.ok ())
  ∧ (tools = [] → check_init tools ms md = Except.error (Err.minValError "len(tools)")) := by
  constructor
  · intro h
    unfold check_init
    rw [if_pos]
    cases tools with
    | nil => exact absurd rfl h
    | cons a b => simp
  · intro h
    subst h
    rfl

/-- C5 witness: the amended theorem applied at a singleton tool list with
non-positive budgets, and at the empty tool list. -/
theorem check_init_spec_witness :
    check_init [⟨"T", "a tool", []⟩] 0 0 = Except.ok ()
  ∧ check_init [] 0 0 = Except.error (Err.minValError "len(tools)") :=
  ⟨(check_init_spec [⟨"T", "a tool", []⟩] 0 0).1 (by simp),
    (check_init_spec [] 0 0).2 rfl⟩

theorem bindLoop_offending (t : ToolSpec) (d : List (String × String))
    (h : ∃ p ∈ d, ∀ s ∈ t.args, s.1 ≠ p.1) :
    ∃ n, (∃ v, (n, v) ∈ d) ∧ (∀ s ∈ t.args, s.1 ≠ n) ∧
      bindLoop t d = Except.error (Err.bindingError n t.name t.args) := by
  induction d with
  | nil => simp at h
  | cons p rest ih =>
    obtain ⟨n0, v0⟩ := p
    by_cases hk : t.args.any (fun s => s.1 == n0) = true
    · have hrest : ∃ p ∈ rest, ∀ s ∈ t.args, s.1 ≠ p.1 := by
        obtain ⟨p, hp, hnot⟩ := h
        rcases List.mem_cons.mp hp with rfl | hmem
        · obtain ⟨s, hs, hseq⟩ := List.any_eq_true.mp hk
          exact absurd (by simpa using hseq) (hnot s hs)
        · exact ⟨p, hmem, hnot⟩
      obtain ⟨n, hv, hnd, heq⟩ := ih hrest
      refine ⟨n, ?_, hnd, ?_⟩
      · obtain ⟨v, hv⟩ := hv
        exact ⟨v, List.mem_cons_of_mem _ hv⟩
      · simp only [bindLoop, if_pos hk, heq]
    · refine ⟨n0, ⟨v0, List.mem_cons_self _ _⟩, ?_, ?_⟩
      · intro s hs hseq
        exact hk (List.any_eq_true.mpr ⟨s, hs, by simp [hseq]⟩)
      · simp only [bindLoop, if_neg hk]

/-- C6: whenever the parsed binder reply contains an argument name absent
from the chosen Capability's declared schema, the Argument Binder fails
with an `AgentError` naming that argument, the Capability name and the
declared schema, and returns no mapping (the hypothesis `t.args ≠ []`
reflects that a Capability with an empty schema short-circuits before any
reply exists to parse). -/
theorem choose_args_unknown_arg_fails (t : ToolSpec) (resp : String)
    (hne : t.args ≠ [])
    (h : ∃ p ∈ parseDict resp, ∀ s ∈ t.args, s.1 ≠ p.1) :
    ∃ n, (∃ v, (n, v) ∈ parseDict resp) ∧ (∀ s ∈ t.args, s.1 ≠ n) ∧
      choose_args t resp = Except.error (Err.bindingError n t.name t.args) := by
  have hie : t.args.isEmpty = false := by
    cases hargs : t.args with
    | nil => exact absurd hargs hne
    | cons a l => rfl
  obtain ⟨n, h1, h2, h3⟩ := bindLoop_offending t (parseDict resp) h
  refine ⟨n, h1, h2, ?_⟩
  unfold choose_args
  rw [if_neg (by simp [hie]), h3]

/-- C6 witness: the theorem applied to the reply `"y: 1"` against a
Capability declaring only the argument `x`. -/
theorem choose_args_unknown_arg_fails_witness :
    ∃ n, (∃ v, (n, v) ∈ parseDict "y: 1")
  ∧ (∀ s ∈ [(("x" : String), ("the x" : String))], s.1 ≠ n)
  ∧ choose_args ⟨"T", "a tool", [("x", "the x")]⟩ "y: 1"
      = Except.error (Err.bindingError n "T" [("x", "the x")]) :=
  choose_args_unknown_arg_fails ⟨"T", "a tool", [("x", "the x")]⟩ "y: 1"
    (by decide) (by decide)

/-- C7: the Argument Binder on the reply `"path: /tmp/a.txt\nmode: 'r'"`
against a Capability declaring arguments `path` and `mode` (with any
descriptions) produces exactly the mapping `path ↦ "/tmp/a.txt"`,
`mode ↦ "r"` — the quoted literal is coerced, the non-literal kept as the
stripped string; and in general each reply line is split on the first
colon only, the name being the stripped text before it and the value the
stripped remainder (later colons included). -/
theorem choose_args_literal_coercion :
    (∀ dsc pd mdsc, choose_args ⟨"open", dsc, [("path", pd), ("mode", mdsc)]⟩
        "path: /tmp/a.txt\nmode: 'r'"
      = Except.ok [("path", PyVal.str "/tmp/a.txt"), ("mode", PyVal.str "r")])
  ∧ (∀ line, parseLine line =
      (pyStrip (beforeColon line), pyStrip (afterFirstColon line))) := by
  constructor
  · intro dsc pd mdsc
    rfl
  · intro line
    have h1 : String.mk ((pySplit ':' line.data).headD []) = beforeColon line := by
      rw [pySplit_head]
      rfl
    have h2 : String.mk (joinSep ':' (pySplit ':' line.data).tail) =
        afterFirstColon line := by
      by_cases hc : ':' ∈ line.data
      · rw [pySplit_mem ':' line.data hc]
        show String.mk
          (joinSep ':' (pySplit ':' ((line.data.dropWhile (fun c => c != ':')).tail))) = _
        rw [joinSep_pySplit]
        rfl
      · rw [pySplit_not_mem ':' line.data hc]
        have hdrop : line.data.dropWhile (fun c => c != ':') = [] := by
          rw [List.dropWhile_eq_nil_iff]
          intro x hx
          simp only [bne_iff_ne, ne_eq]
          intro hxc
          exact hc (hxc ▸ hx)
        show String.mk (joinSep ':' []) = _
        unfold afterFirstColon
        rw [hdrop]
        rfl
    simp only [parseLine]
    rw [h1, h2]

theorem find?_name_some (tools : List ToolSpec) (resp : String)
    (h : ∃ t ∈ tools, t.name = resp) :
    ∃ t, tools.find? (fun t => t.name == resp) = some t ∧ t.name = resp ∧ t ∈ tools := by
  induction tools with
  | nil => simp at h
  | cons a rest ih =>
    by_cases ha : a.name = resp
    · exact ⟨a, by simp [List.find?, ha], ha, List.mem_cons_self _ _⟩
    · have hrest : ∃ t ∈ rest, t.name = resp := by
        obtain ⟨t, ht, hn⟩ := h
        rcases List.mem_cons.mp ht with rfl | hmem
        · exact absurd hn ha
        · exact ⟨t, hmem, hn⟩
      obtain ⟨t, hf, hn, hm⟩ := ih hrest
      refine ⟨t, ?_, hn, List.mem_cons_of_mem _ hm⟩
      rw [List.find?_cons_of_neg _ (by simp [ha])]
      exact hf

theorem find?_name_none (tools : List ToolSpec) (resp : String)
    (h : ∀ t ∈ tools, t.name ≠ resp) :
    tools.find? (fun t => t.name == resp) = none := by
  induction tools with
  | nil => rfl
  | cons a rest ih =>
    rw [List.find?_cons_of_neg _ (by simp [h a (List.mem_cons_self _ _)])]
    exact ih (fun t ht => h t (List.mem_cons_of_mem _ ht))

/-- C8: a singleton Capability set is returned directly — the result does
not depend on the Completion Service reply at all; with two or more
Capabilities, the reply is matched by exact string equality against
registered names: a matching name returns such a Capability, an unmatched
reply raises `AgentError` carrying the raw reply text. -/
theorem choose_tool_spec :
    (∀ t : ToolSpec, ∀ resp, choose_tool [t] resp = Except.ok t)
  ∧ (∀ tools : List ToolSpec, ∀ resp, 2 ≤ tools.length →
      ((∃ t ∈ tools, t.name = resp) →
        ∃ t, t ∈ tools ∧ t.name = resp ∧ choose_tool tools resp = Except.ok t)
    ∧ ((∀ t ∈ tools, t.name ≠ resp) →
        choose_tool tools resp = Except.error (Err.selectionError resp))) := by
  refine ⟨fun t resp => rfl, fun tools resp hlen => ?_⟩
  obtain ⟨a, b, rest, rfl⟩ : ∃ a b rest, tools = a :: b :: rest := by
    cases tools with
    | nil => simp at hlen
    | cons a l =>
      cases l with
      | nil => simp at hlen
      | cons b rest => exact ⟨a, b, rest, rfl⟩
  constructor
  · intro h
    obtain ⟨t, hf, hn, hm⟩ := find?_name_some _ resp h
    refine ⟨t, hm, hn, ?_⟩
    show (match (a :: b :: rest).find? (fun t => t.name == resp) with
      | some t => Except.ok t
      | none => Except.error (Err.selectionError resp)) = Except.ok t
    rw [hf]
  · intro h
    have hf := find?_name_none _ resp h
    show (match (a :: b :: rest).find? (fun t => t.name == resp) with
      | some t => Except.ok t
      | none => Except.error (Err.selectionError resp)) = _
    rw [hf]

/-- C8 witness: the theorem applied at a singleton set and at a two-element
set under matching and non-matching replies. -/
theorem choose_tool_spec_witness :
    choose_tool [⟨"A", "a", []⟩] "anything" = Except.ok ⟨"A", "a", []⟩
  ∧ (∃ t, t ∈ [(⟨"A", "a", []⟩ : ToolSpec), ⟨"B", "b", []⟩] ∧ t.name = "B"
      ∧ choose_tool [⟨"A", "a", []⟩, ⟨"B", "b", []⟩] "B" = Except.ok t)
  ∧ choose_tool [⟨"A", "a", []⟩, ⟨"B", "b", []⟩] "C"
      = Except.error (Err.selectionError "C") :=
  ⟨choose_tool_spec.1 ⟨"A", "a", []⟩ "anything",
    (choose_tool_spec.2 [⟨"A", "a", []⟩, ⟨"B", "b", []⟩] "B" (by decide)).1
      (by decide),
    (choose_tool_spec.2 [⟨"A", "a", []⟩, ⟨"B", "b", []⟩] "C" (by decide)).2
      (by decide)⟩

theorem choose_tool_error_shape (tools : List ToolSpec) (resp : String) (e : Err)
    (h : choose_tool tools resp = Except.error e) : e = Err.selectionError resp := by
  rcases tools with _ | ⟨a, _ | ⟨b, rest⟩⟩
  · unfold choose_tool at h
    simp only [List.find?] at h
    injection h with h
    exact h.symm
  · exact absurd h (by simp [choose_tool])
  · unfold choose_tool at h
    cases hf : (a :: b :: rest).find? (fun t => t.name == resp) with
    | some t => rw [hf] at h; simp at h
    | none =>
      rw [hf] at h
      injection h with h
      exact h.symm

theorem bindLoop_error_shape (t : ToolSpec) (d : List (String × String)) (e : Err)
    (h : bindLoop t d = Except.error e) :
    ∃ n, e = Err.bindingError n t.name t.args := by
  induction d with
  | nil => simp [bindLoop] at h
  | cons p rest ih =>
    obtain ⟨n0, v0⟩ := p
    by_cases hk : t.args.any (fun s => s.1 == n0) = true
    · rw [bindLoop, if_pos hk] at h
      cases hb : bindLoop t rest with
      | ok kwargs => rw [hb] at h; simp at h
      | error e2 =>
        rw [hb] at h
        injection h with h
        subst h
        exact ih hb
    · rw [bindLoop, if_neg hk] at h
      injection h with h
      exact ⟨n0, h.symm⟩

theorem choose_args_error_shape (t : ToolSpec) (resp : String) (e : Err)
    (h : choose_args t resp = Except.error e) :
    ∃ n, e = Err.bindingError n t.name t.args := by
  unfold choose_args at h
  by_cases hie : t.args.isEmpty = true
  · rw [if_pos hie] at h; simp at h
  · rw [if_neg hie] at h
    exact bindLoop_error_shape t (parseDict resp) e h

theorem runLoop_nonempty_not_rejected (cfg : Config) (env : RunEnv) (rem : Nat)
    (q : String) (log : List ActionStep) (k inv se : Nat) (hne : log ≠ []) :
    (runLoop cfg env rem q log k inv se).outcome
      ≠ Except.error Err.confirmationRejected := by
  cases rem with
  | zero =>
    rw [runLoop_zero]
    unfold timeoutExit
    cases hl : log.getLast? <;> simp
  | succ rem =>
    rw [runLoop_succ]
    by_cases hel : env.elapsed k ≤ cfg.max_duration
    · rw [if_pos hel]
      cases log with
      | nil => exact absurd rfl hne
      | cons a l => simp
    · rw [if_neg hel]
      unfold timeoutExit
      cases hl : log.getLast? <;> simp

/-- C9: whenever a run aborts because the human-confirmation gate rejected
the proposed action, the Step Log is exactly what it was when `run` was
entered — no ActionStep was appended for the attempted action — and no
Capability invocation and no `AgentStep` event happened in the whole run. -/
theorem confirmation_rejection_aborts (cfg : Config) (env : RunEnv) (q : String)
    (L : List ActionStep)
    (h : (runT cfg env q L).outcome = Except.error Err.confirmationRejected) :
    (runT cfg env q L).action_steps = L ∧ (runT cfg env q L).invocations = 0
  ∧ (runT cfg env q L).stepEvents = 0 := by
  unfold runT at h ⊢
  cases hrem : cfg.max_steps.toNat with
  | zero =>
    rw [hrem, runLoop_zero] at h
    unfold timeoutExit at h
    cases hl : L.getLast? <;> rw [hl] at h <;> simp at h
  | succ rem =>
    rw [hrem] at h
    by_cases hel : env.elapsed 0 ≤ cfg.max_duration
    · rw [runLoop_succ, if_pos hel] at h ⊢
      cases L with
      | cons a l => simp at h
      | nil =>
        dsimp only at h ⊢
        cases hct : choose_tool cfg.tools (env.selector 0) with
        | error e => exact ⟨rfl, rfl, rfl⟩
        | ok tool =>
          rw [hct] at h
          dsimp only at h ⊢
          cases hca : choose_args tool (env.binder 0) with
          | error e => exact ⟨rfl, rfl, rfl⟩
          | ok kwargs =>
            rw [hca] at h
            dsimp only at h ⊢
            by_cases hcf : env.confirm 0 = true
            · rw [if_pos hcf] at h ⊢
              cases htr : env.toolResult 0 with
              | error msg => rw [htr] at h; simp at h
              | ok r =>
                rw [htr] at h
                exact absurd h (runLoop_nonempty_not_rejected cfg env rem q
                  [⟨q, ⟨tool.name, kwargs⟩, r⟩] (0 + 1) (0 + 1) (0 + 1) (by simp))
            · rw [if_neg hcf] at h ⊢
              exact ⟨rfl, rfl, rfl⟩
    · rw [runLoop_succ, if_neg hel] at h
      unfold timeoutExit at h
      cases hl : L.getLast? <;> rw [hl] at h <;> simp at h

/-- A configuration and oracle exercising C9: the gate rejects at the first
iteration. -/
def cfgC9 : Config := ⟨[⟨"T", "a tool", []⟩], 5, 60⟩

def envC9 : RunEnv :=
  ⟨fun _ => "", fun _ => "", fun _ => "", fun _ => false,
    fun _ => Except.ok (PyVal.str "r"), fun _ => 0⟩

/-- C9 witness: the theorem applied to a run whose gate rejects. -/
theorem confirmation_rejection_aborts_witness :
    (runT cfgC9 envC9 "q" []).action_steps = []
  ∧ (runT cfgC9 envC9 "q" []).invocations = 0
  ∧ (runT cfgC9 envC9 "q" []).stepEvents = 0 :=
  confirmation_rejection_aborts cfgC9 envC9 "q" [] (by decide)

theorem runLoop_log_extends (cfg : Config) (env : RunEnv) (rem : Nat) :
    ∀ q L k inv se, ∃ suf, (runLoop cfg env rem q L k inv se).action_steps = L ++ suf := by
  induction rem with
  | zero =>
    intro q L k inv se
    rw [runLoop_zero]
    unfold timeoutExit
    cases hl : L.getLast? <;> exact ⟨[], by simp⟩
  | succ rem ih =>
    intro q L k inv se
    rw [runLoop_succ]
    by_cases hel : env.elapsed k ≤ cfg.max_duration
    · rw [if_pos hel]
      cases L with
      | cons a l => exact ⟨[], by simp⟩
      | nil =>
        dsimp only
        cases hct : choose_tool cfg.tools (env.selector k) with
        | error e => exact ⟨[], rfl⟩
        | ok tool =>
          dsimp only
          cases hca : choose_args tool (env.binder k) with
          | error e => exact ⟨[], rfl⟩
          | ok kwargs =>
            dsimp only
            by_cases hcf : env.confirm k = true
            · rw [if_pos hcf]
              cases htr : env.toolResult k with
              | error msg => exact ⟨[], rfl⟩
              | ok r =>
                obtain ⟨suf, hsuf⟩ :=
                  ih q [⟨q, ⟨tool.name, kwargs⟩, r⟩] (k + 1) (inv + 1) (se + 1)
                exact ⟨⟨q, ⟨tool.name, kwargs⟩, r⟩ :: suf, by simpa using hsuf⟩
            · rw [if_neg hcf]
              exact ⟨[], rfl⟩
    · rw [if_neg hel]
      unfold timeoutExit
      cases hl : L.getLast? <;> exact ⟨[], by simp⟩

theorem runLoop_index_empty (cfg : Config) (env : RunEnv) (rem : Nat) :
    ∀ q L k inv se,
      (runLoop cfg env rem q L k inv se).outcome = Except.error Err.indexError →
      (runLoop cfg env rem q L k inv se).action_steps = [] := by
  induction rem with
  | zero =>
    intro q L k inv se h
    rw [runLoop_zero] at h ⊢
    unfold timeoutExit at h ⊢
    cases L with
    | nil => rfl
    | cons a l =>
      obtain ⟨x, hx⟩ : ∃ x, (a :: l).getLast? = some x :=
        Option.isSome_iff_exists.mp (List.getLast?_isSome.mpr (by simp))
      rw [hx] at h
      simp at h
  | succ rem ih =>
    intro q L k inv se h
    rw [runLoop_succ] at h ⊢
    by_cases hel : env.elapsed k ≤ cfg.max_duration
    · rw [if_pos hel] at h ⊢
      cases L with
      | cons a l => simp at h
      | nil =>
        dsimp only at h ⊢
        cases hct : choose_tool cfg.tools (env.selector k) with
        | error e => rfl
        | ok tool =>
          rw [hct] at h
          dsimp only at h ⊢
          cases hca : choose_args tool (env.binder k) with
          | error e => rfl
          | ok kwargs =>
            rw [hca] at h
            dsimp only at h ⊢
            by_cases hcf : env.confirm k = true
            · rw [if_pos hcf] at h ⊢
              cases htr : env.toolResult k with
              | error msg => rfl
              | ok r =>
                rw [htr] at h
                exact ih q [⟨q, ⟨tool.name, kwargs⟩, r⟩] (k + 1) (inv + 1) (se + 1) h
            · rw [if_neg hcf] at h ⊢
    · rw [if_neg hel] at h ⊢
      unfold timeoutExit at h ⊢
      cases L with
      | nil => rfl
      | cons a l =>
        obtain ⟨x, hx⟩ : ∃ x, (a :: l).getLast? = some x :=
          Option.isSome_iff_exists.mp (List.getLast?_isSome.mpr (by simp))
        rw [hx] at h
        simp at h

theorem runLoop_ok_status1_last (cfg : Config) (env : RunEnv) (rem : Nat) :
    ∀ q L k inv se r,
      (runLoop cfg env rem q L k inv se).outcome = Except.ok (r, 1) →
      ∃ last, (runLoop cfg env rem q L k inv se).action_steps.getLast? = some last
        ∧ r = last.result := by
  induction rem with
  | zero =>
    intro q L k inv se r h
    rw [runLoop_zero] at h ⊢
    unfold timeoutExit at h ⊢
    cases hl : L.getLast? with
    | none => rw [hl] at h; simp at h
    | some last =>
      rw [hl] at h ⊢
      refine ⟨last, rfl, ?_⟩
      simp only [Except.ok.injEq, Prod.mk.injEq] at h
      exact h.1.symm
  | succ rem ih =>
    intro q L k inv se r h
    rw [runLoop_succ] at h ⊢
    by_cases hel : env.elapsed k ≤ cfg.max_duration
    · rw [if_pos hel] at h ⊢
      cases L with
      | cons a l => simp at h
      | nil =>
        dsimp only at h ⊢
        cases hct : choose_tool cfg.tools (env.selector k) with
        | error e => rw [hct] at h; simp at h
        | ok tool =>
          rw [hct] at h
          dsimp only at h ⊢
          cases hca : choose_args tool (env.binder k) with
          | error e => rw [hca] at h; simp at h
          | ok kwargs =>
            rw [hca] at h
            dsimp only at h ⊢
            by_cases hcf : env.confirm k = true
            · rw [if_pos hcf] at h ⊢
              cases htr : env.toolResult k with
              | error msg => rw [htr] at h; simp at h
              | ok r2 =>
                rw [htr] at h
                exact ih q [⟨q, ⟨tool.name, kwargs⟩, r2⟩] (k + 1) (inv + 1) (se + 1) r h
            · rw [if_neg hcf] at h ⊢
              simp at h
    · rw [if_neg hel] at h ⊢
      unfold timeoutExit at h ⊢
      cases hl : L.getLast? with
      | none => rw [hl] at h; simp at h
      | some last =>
        rw [hl] at h ⊢
        refine ⟨last, rfl, ?_⟩
        simp only [Except.ok.injEq, Prod.mk.injEq] at h
        exact h.1.symm

/-- C10: on a freshly constructed Orchestrator (empty Step Log): with
`max_steps ≤ 0` — which `_check_init` does not reject — the loop body
never runs, one `AgentTimeout` event is published, and the final return
raises `IndexError` on the empty Step Log instead of returning a
`(result, status)` pair; with `max_steps ≥ 1` and `max_duration > 0`
(elapsed time starting at 0) the first iteration passes the budget check
and the run can never raise `IndexError`; and every budget-exhaustion
return — outcome `(r, 1)` — yields the result of the last recorded
ActionStep of a non-empty Step Log. -/
theorem budget_exhaustion_return_spec (cfg : Config) (env : RunEnv) (q : String) :
    (cfg.max_steps ≤ 0 →
      runT cfg env q [] = ⟨Except.error Err.indexError, [], 0, 0, 1⟩)
  ∧ (1 ≤ cfg.max_steps → env.elapsed 0 = 0 → 0 < cfg.max_duration →
      (runT cfg env q []).outcome ≠ Except.error Err.indexError)
  ∧ (∀ r, (runT cfg env q []).outcome = Except.ok (r, 1) →
      ∃ last, (runT cfg env q []).action_steps.getLast? = some last
        ∧ r = last.result) := by
  refine ⟨?_, ?_, ?_⟩
  · intro hms
    have h0 : cfg.max_steps.toNat = 0 := by omega
    unfold runT
    rw [h0, runLoop_zero]
    rfl
  · intro hms hel hmd h
    obtain ⟨m, hm⟩ : ∃ m, cfg.max_steps.toNat = m + 1 := by
      have h1 : 1 ≤ cfg.max_steps.toNat := by omega
      exact ⟨cfg.max_steps.toNat - 1, by omega⟩
    unfold runT at h
    rw [hm, runLoop_succ, if_pos (by rw [hel]; exact le_of_lt hmd)] at h
    dsimp only at h
    cases hct : choose_tool cfg.tools (env.selector 0) with
    | error e =>
      rw [hct] at h
      obtain rfl := choose_tool_error_shape _ _ _ hct
      simp at h
    | ok tool =>
      rw [hct] at h
      dsimp only at h
      cases hca : choose_args tool (env.binder 0) with
      | error e =>
        rw [hca] at h
        obtain ⟨n, rfl⟩ := choose_args_error_shape _ _ _ hca
        simp at h
      | ok kwargs =>
        rw [hca] at h
        dsimp only at h
        by_cases hcf : env.confirm 0 = true
        · rw [if_pos hcf] at h
          cases htr : env.toolResult 0 with
          | error msg => rw [htr] at h; simp at h
          | ok r =>
            rw [htr] at h
            have hemp := runLoop_index_empty cfg env m q
              [⟨q, ⟨tool.name, kwargs⟩, r⟩] (0 + 1) (0 + 1) (0 + 1) h
            obtain ⟨suf, hsuf⟩ := runLoop_log_extends cfg env m q
              [⟨q, ⟨tool.name, kwargs⟩, r⟩] (0 + 1) (0 + 1) (0 + 1)
            rw [hemp] at hsuf
            simp at hsuf
        · rw [if_neg hcf] at h
          simp at h
  · intro r h
    exact runLoop_ok_status1_last cfg env cfg.max_steps.toNat q [] 0 0 0 r h

/-- Configurations and an oracle exercising C10: `max_steps = 0` (not
rejected at construction) and `max_steps = 1`. -/
def cfgC10a : Config := ⟨[⟨"T", "a tool", []⟩], 0, 60⟩

def cfgC10b : Config := ⟨[⟨"T", "a tool", []⟩], 1, 60⟩

def envC10 : RunEnv :=
  ⟨fun _ => "", fun _ => "", fun _ => "", fun _ => true,
    fun _ => Except.ok (PyVal.str "out"), fun _ => 0⟩

/-- C10 witness: the theorem applied at `max_steps = 0` (IndexError after
one timeout event) and at `max_steps = 1` (no IndexError; the budget
return yields the last ActionStep's result). -/
theorem budget_exhaustion_return_spec_witness :
    runT cfgC10a envC10 "q" [] = ⟨Except.error Err.indexError, [], 0, 0, 1⟩
  ∧ (runT cfgC10b envC10 "q" []).outcome ≠ Except.error Err.indexError
  ∧ (∃ last, (runT cfgC10b envC10 "q" []).action_steps.getLast? = some last
      ∧ PyVal.str "out" = last.result) :=
  ⟨(budget_exhaustion_return_spec cfgC10a envC10 "q").1 (by decide),
    (budget_exhaustion_return_spec cfgC10b envC10 "q").2.1 (by decide) rfl
      (show (0 : ℚ) < 60 by norm_num),
    (budget_exhaustion_return_spec cfgC10b envC10 "q").2.2 (PyVal.str "out")
      (by decide)⟩

end Embedia
